import Mathlib

/-!
Shallow embedding of the zarr-dump metadata core (src/metadata.rs,
src/store.rs, src/cf.rs) and proofs about its specified behavior.

Rust `HashMap`s are embedded as association lists `List (String × α)`;
iteration order of a map is one fixed traversal order of the list, and
every property proved below is quantified over arbitrary lists, hence
over every possible iteration order.  Machine integers (`u64`, `usize`,
`u128`) are embedded as `Nat` with saturation made explicit where the
source saturates.
-/

/-- `AttributeValue` from src/metadata.rs: a JSON-like tagged value. -/
inductive AttributeValue where
  | string (s : String)
  | number (q : Rat)
  | integer (n : Int)
  | boolean (b : Bool)
  | array (items : List AttributeValue)
  | object (fields : List (String × AttributeValue))
  | null
deriving Repr

/-- `Dimension` from src/metadata.rs: a per-variable view of one axis. -/
structure Dimension where
  name : String
  size : Nat
  is_unlimited : Bool
deriving Repr, DecidableEq

/-- `Variable` from src/metadata.rs. -/
structure Variable where
  name : String
  path : String
  dtype : String
  shape : List Nat
  chunks : List Nat
  compressor : Option String
  fill_value : Option AttributeValue
  order : String
  filters : List String
  attributes : List (String × AttributeValue)
  dimensions : List Dimension
deriving Repr

/-- `Group` from src/metadata.rs (renamed: `Group` is taken by Mathlib). -/
structure ZarrGroup where
  name : String
  path : String
  attributes : List (String × AttributeValue)
  children : List String
deriving Repr

/-- `DimensionInfo` from src/metadata.rs: store-wide aggregate per dimension name. -/
structure DimensionInfo where
  name : String
  max_length : Nat
  is_unlimited : Bool
  appearances : List (String × Nat)
deriving Repr

/-- `ZarrMetadata` from src/metadata.rs (maps embedded as association lists;
the `variables` field is renamed `vars` because `variables` is reserved in
Lean 4). -/
structure ZarrMetadata where
  zarr_format : Nat
  global_attributes : List (String × AttributeValue)
  groups : List (String × ZarrGroup)
  vars : List (String × Variable)
  root_group : ZarrGroup
  dimensions : List (String × DimensionInfo)
deriving Repr

/-- `HashMap::get` over an association list. -/
def lookupA {α : Type} (m : List (String × α)) (k : String) : Option α :=
  (m.find? (fun p => p.1 == k)).map Prod.snd

/-- `HashMap::get_key_value` over an association list. -/
def lookupKV {α : Type} (m : List (String × α)) (k : String) : Option (String × α) :=
  m.find? (fun p => p.1 == k)

/-- The string payload of an attribute value, when it is a string
(the `AttributeValue::String(s) => Some(s)` arm of `filter_map` in
`extract_dimension_names`). -/
def attrString : AttributeValue → Option String
  | .string s => some s
  | _ => none

/-- `ZarrMetadata::extract_dimension_names` (src/metadata.rs lines 189-204):
string entries of `_ARRAY_DIMENSIONS` kept in order, non-string entries
dropped; with no such array attribute, default names `dim_<i>`. -/
def extract_dimension_names (v : Variable) : List String :=
  match lookupA v.attributes "_ARRAY_DIMENSIONS" with
  | some (AttributeValue.array dims) => dims.filterMap attrString
  | _ => (List.range v.shape.length).map (fun i => "dim_" ++ toString i)

/-- The dimension name `infer_dimensions` assigns to axis `i` of a variable
(src/metadata.rs lines 112-115 and 167-170):
`dim_names.get(i).cloned().unwrap_or_else(|| format!("dim_{}", i))`. -/
def dimNameAt (v : Variable) (i : Nat) : String :=
  ((extract_dimension_names v).get? i).getD ("dim_" ++ toString i)

/-- The `(dim_name, variable_path, size)` triples pushed into `dimension_map`
by the first pass of `infer_dimensions` (src/metadata.rs lines 107-121),
in traversal order. -/
def dimAppearanceEntries (vars : List (String × Variable)) : List (String × String × Nat) :=
  vars.flatMap (fun pv => pv.2.shape.enum.map (fun is => (dimNameAt pv.2 is.1, pv.1, is.2)))

/-- The appearance list `dimension_map[name]` built by `infer_dimensions`. -/
def appearancesOf (vars : List (String × Variable)) (name : String) : List (String × Nat) :=
  (dimAppearanceEntries vars).filterMap (fun t => if t.1 == name then some t.2 else none)

/-- `has_zero_size` in `infer_dimensions` (src/metadata.rs lines 134-139). -/
def hasZeroSize (apps : List (String × Nat)) : Bool :=
  apps.any (fun a => a.2 == 0)

/-- The distinct recorded sizes (`unique_sizes` in `infer_dimensions`). -/
def uniqueSizes (apps : List (String × Nat)) : List Nat :=
  (apps.map Prod.snd).dedup

/-- The `is_unlimited` formula of `infer_dimensions` (src/metadata.rs line 141):
`has_zero_size || (appearances.len() > 1 && unique_sizes.len() > 1)`. -/
def isUnlimitedFor (apps : List (String × Nat)) : Bool :=
  hasZeroSize apps || (decide (apps.length > 1) && decide ((uniqueSizes apps).length > 1))

/-- The entry `self.dimensions[name]` after `infer_dimensions` runs
(src/metadata.rs lines 125-151): present iff the name has at least one
appearance, with `max_length` the maximum recorded size. -/
def dimensionInfoOf (vars : List (String × Variable)) (name : String) : Option DimensionInfo :=
  let apps := appearancesOf vars name
  if apps.isEmpty then none
  else some
    { name := name
      max_length := (apps.map Prod.snd).foldr max 0
      is_unlimited := isUnlimitedFor apps
      appearances := apps }

/-- The second pass of `infer_dimensions` (src/metadata.rs lines 153-185):
the rewritten `dimensions` field of one variable. -/
def inferredVariableDimensions (vars : List (String × Variable)) (v : Variable) : List Dimension :=
  v.shape.enum.map (fun is =>
    let dim_name := dimNameAt v is.1
    { name := dim_name
      size := is.2
      is_unlimited := ((dimensionInfoOf vars dim_name).map DimensionInfo.is_unlimited).getD false })

lemma dimensionInfoOf_is_unlimited {vars : List (String × Variable)} {name : String}
    {di : DimensionInfo} (h : dimensionInfoOf vars name = some di) :
    di.is_unlimited = isUnlimitedFor (appearancesOf vars name) := by
  unfold dimensionInfoOf at h
  by_cases he : (appearancesOf vars name).isEmpty
  · simp [he] at h
  · simp [he] at h
    rw [← h]

lemma uniqueSizes_length_le (apps : List (String × Nat)) :
    (uniqueSizes apps).length ≤ apps.length := by
  have h := (List.dedup_sublist (apps.map Prod.snd)).length_le
  simpa [uniqueSizes] using h

lemma hasZeroSize_eq_false {apps : List (String × Nat)}
    (h : ∀ a ∈ apps, a.2 ≠ 0) : hasZeroSize apps = false := by
  simp only [hasZeroSize, List.any_eq_false]
  intro a ha
  simpa using h a ha

/-- Claim C1: after `infer_dimensions`, a dimension name recorded with two or
more distinct sizes is unlimited; one recorded with a single size across all
appearances is not unlimited unless some appearance has size 0; and any name
with a size-0 appearance is unlimited. -/
theorem infer_dimensions_unlimited_rule
    (vars : List (String × Variable)) (name : String) (di : DimensionInfo)
    (h : dimensionInfoOf vars name = some di) :
    (2 ≤ (uniqueSizes (appearancesOf vars name)).length → di.is_unlimited = true)
    ∧ ((uniqueSizes (appearancesOf vars name)).length = 1 ∧
        (∀ a ∈ appearancesOf vars name, a.2 ≠ 0) → di.is_unlimited = false)
    ∧ ((∃ a ∈ appearancesOf vars name, a.2 = 0) → di.is_unlimited = true) := by
  rw [dimensionInfoOf_is_unlimited h]
  refine ⟨?_, ?_, ?_⟩
  · intro h2
    have hlen : 2 ≤ (appearancesOf vars name).length :=
      le_trans h2 (uniqueSizes_length_le _)
    simp only [isUnlimitedFor, Bool.or_eq_true, Bool.and_eq_true, decide_eq_true_eq]
    right
    exact ⟨by omega, by omega⟩
  · rintro ⟨h1, hz⟩
    have hd : decide ((uniqueSizes (appearancesOf vars name)).length > 1) = false := by
      rw [h1]
      rfl
    simp [isUnlimitedFor, hasZeroSize_eq_false hz, hd]
  · rintro ⟨a, ha, haz⟩
    simp only [isUnlimitedFor, Bool.or_eq_true]
    left
    simp only [hasZeroSize, List.any_eq_true]
    exact ⟨a, ha, by simp [haz]⟩

/-- A sample variable builder mirroring the fields of `Variable`. -/
def mkVar (name path : String) (shape : List Nat)
    (attributes : List (String × AttributeValue)) : Variable :=
  { name := name, path := path, dtype := "<f8", shape := shape, chunks := shape,
    compressor := none, fill_value := none, order := "C", filters := [],
    attributes := attributes, dimensions := [] }

def timeDimAttr : List (String × AttributeValue) :=
  [("_ARRAY_DIMENSIONS", AttributeValue.array [AttributeValue.string "time"])]

def exVarsC1 : List (String × Variable) :=
  [("temp1", mkVar "temp1" "temp1" [100] timeDimAttr),
   ("temp2", mkVar "temp2" "temp2" [200] timeDimAttr)]

theorem infer_dimensions_unlimited_rule_witness :
    ∃ di, dimensionInfoOf exVarsC1 "time" = some di ∧ di.is_unlimited = true :=
  ⟨_, rfl, (infer_dimensions_unlimited_rule exVarsC1 "time" _ rfl).1 (by decide)⟩

def c4ZeroVar : Variable := mkVar "unlimited_var" "unlimited_var" [0] []

/-- Counterexample to claim C4 as stated: a dimension used by exactly one
variable, with the single recorded size 0, is marked unlimited by
`infer_dimensions` (the `has_zero_size` disjunct fires even for a lone
appearance). -/
theorem single_zero_size_marked_unlimited :
    (appearancesOf [("unlimited_var", c4ZeroVar)] "dim_0").length = 1
    ∧ uniqueSizes (appearancesOf [("unlimited_var", c4ZeroVar)] "dim_0") = [0]
    ∧ ∃ di, dimensionInfoOf [("unlimited_var", c4ZeroVar)] "dim_0" = some di
        ∧ di.is_unlimited = true :=
  ⟨rfl, rfl, ⟨_, rfl, rfl⟩⟩

/-- Claim C4 (amended): a dimension name with exactly one recorded appearance
whose size is nonzero is never marked unlimited by `infer_dimensions`. -/
theorem single_nonzero_appearance_not_unlimited
    (vars : List (String × Variable)) (name p : String) (n : Nat) (di : DimensionInfo)
    (happ : appearancesOf vars name = [(p, n)]) (hn : n ≠ 0)
    (h : dimensionInfoOf vars name = some di) :
    di.is_unlimited = false := by
  rw [dimensionInfoOf_is_unlimited h, happ]
  simp [isUnlimitedFor, hasZeroSize, uniqueSizes, hn]

def c4FiveVar : Variable := mkVar "v" "v" [5] []

theorem single_nonzero_appearance_not_unlimited_witness :
    ∃ di, dimensionInfoOf [("v", c4FiveVar)] "dim_0" = some di ∧ di.is_unlimited = false :=
  ⟨_, rfl, single_nonzero_appearance_not_unlimited [("v", c4FiveVar)] "dim_0" "v" 5 _ rfl
    (by decide) rfl⟩

/-- Claim C10: with an `_ARRAY_DIMENSIONS` array containing non-string
entries, `extract_dimension_names` keeps the string entries in order
(shifted left past the dropped positions); axis `i` receives the `i`-th
surviving string name, and trailing axes fall back to `dim_<i>`. -/
theorem extract_dimension_names_nonstring_shift
    (v : Variable) (items : List AttributeValue)
    (h : lookupA v.attributes "_ARRAY_DIMENSIONS" = some (AttributeValue.array items)) :
    extract_dimension_names v = items.filterMap attrString
    ∧ (∀ i : Nat,
        dimNameAt v i = ((items.filterMap attrString).get? i).getD ("dim_" ++ toString i))
    ∧ (∀ pre bad post, items = pre ++ bad :: post → attrString bad = none →
        extract_dimension_names v = pre.filterMap attrString ++ post.filterMap attrString) := by
  have h1 : extract_dimension_names v = items.filterMap attrString := by
    simp only [extract_dimension_names, h]
  refine ⟨h1, ?_, ?_⟩
  · intro i
    simp only [dimNameAt, h1]
  · intro pre bad post hitems hbad
    rw [h1, hitems]
    simp [List.filterMap_append, List.filterMap_cons, hbad]

def c10Var : Variable :=
  mkVar "data" "data" [5, 6, 7]
    [("_ARRAY_DIMENSIONS", AttributeValue.array
      [AttributeValue.string "a", AttributeValue.integer 7, AttributeValue.string "b"])]

theorem extract_dimension_names_nonstring_shift_witness :
    extract_dimension_names c10Var = ["a", "b"]
    ∧ dimNameAt c10Var 1 = "b" ∧ dimNameAt c10Var 2 = "dim_2" :=
  ⟨(extract_dimension_names_nonstring_shift c10Var _ rfl).1.trans rfl,
   ((extract_dimension_names_nonstring_shift c10Var _ rfl).2.1 1).trans rfl,
   ((extract_dimension_names_nonstring_shift c10Var _ rfl).2.1 2).trans rfl⟩

/-- `str::rsplit_once('/')` on the character list: split at the last
occurrence of the slash, or `none` when there is no slash. -/
def rsplitOnceAux : List Char → Option (List Char × List Char)
  | [] => none
  | c :: rest =>
    match rsplitOnceAux rest with
    | some (p, s) => some (c :: p, s)
    | none => if c = '/' then some ([], rest) else none

/-- `source_path.rsplit_once('/')` from src/cf.rs line 827. -/
def rsplitOnce (s : String) : Option (String × String) :=
  (rsplitOnceAux s.data).map (fun pr => (String.mk pr.1, String.mk pr.2))

/-- `resolve_related_var` (src/cf.rs lines 816-835): exact lookup of `name`
against the variable map, then, only when the referencing path has a parent
scope, one retry as `<parent>/<name>`. -/
def resolve_related_var (md : ZarrMetadata) (source_path name : String) :
    Option (String × Variable) :=
  match lookupKV md.vars name with
  | some v => some v
  | none =>
    match rsplitOnce source_path with
    | some (parent, _) => lookupKV md.vars (parent ++ "/" ++ name)
    | none => none

lemma rsplitOnceAux_eq_none_iff (l : List Char) : rsplitOnceAux l = none ↔ '/' ∉ l := by
  induction l with
  | nil => simp [rsplitOnceAux]
  | cons c rest ih =>
    cases hr : rsplitOnceAux rest with
    | some pr =>
      have hin : '/' ∈ rest := by
        by_contra hnot
        rw [ih.mpr hnot] at hr
        cases hr
      simp [rsplitOnceAux, hr, List.mem_cons, hin]
    | none =>
      have hnot : '/' ∉ rest := ih.mp hr
      by_cases hc : c = '/'
      · simp [rsplitOnceAux, hr, hc]
      · simp [rsplitOnceAux, hr, hc, List.mem_cons, hnot, Ne.symm hc]

/-- Claim C3: `resolve_related_var` tries an exact match first (so a name
keyed at root level resolves for every referencer); when that fails it
retries only as `<parent>/<name>` for the immediate parent of the
referencing path; a referencing path without a slash gets only the exact
attempt; and every successful resolution comes from one of those two exact
lookups (no ancestor search, no case-insensitive matching). -/
theorem resolve_related_var_scope (md : ZarrMetadata) (src name : String) :
    (∀ kv, lookupKV md.vars name = some kv → resolve_related_var md src name = some kv)
    ∧ (lookupKV md.vars name = none →
        ∀ parent rest, rsplitOnce src = some (parent, rest) →
          resolve_related_var md src name = lookupKV md.vars (parent ++ "/" ++ name))
    ∧ ('/' ∉ src.data → resolve_related_var md src name = lookupKV md.vars name)
    ∧ (∀ kv, resolve_related_var md src name = some kv →
        lookupKV md.vars name = some kv ∨
        ∃ parent rest, rsplitOnce src = some (parent, rest) ∧
          lookupKV md.vars (parent ++ "/" ++ name) = some kv) := by
  refine ⟨?_, ?_, ?_, ?_⟩
  · intro kv hkv
    simp [resolve_related_var, hkv]
  · intro hnone parent rest hsplit
    simp [resolve_related_var, hnone, hsplit]
  · intro hns
    have hsplit : rsplitOnce src = none := by
      simp [rsplitOnce, (rsplitOnceAux_eq_none_iff src.data).mpr hns]
    cases hkv : lookupKV md.vars name with
    | some kv => simp [resolve_related_var, hkv]
    | none => simp [resolve_related_var, hkv, hsplit]
  · intro kv hres
    cases hkv : lookupKV md.vars name with
    | some kv2 =>
      left
      simp [resolve_related_var, hkv] at hres
      rw [hres]
    | none =>
      right
      cases hsplit : rsplitOnce src with
      | none => simp [resolve_related_var, hkv, hsplit] at hres
      | some pr =>
        obtain ⟨parent, rest⟩ := pr
        refine ⟨parent, rest, rfl, ?_⟩
        simpa [resolve_related_var, hkv, hsplit] using hres

/-- The root group created by `ZarrMetadata::default` (src/metadata.rs). -/
def rootGroupDefault : ZarrGroup :=
  { name := "/", path := "/", attributes := [], children := [] }

/-- A metadata value holding just the given variable map. -/
def mkMetadata (vars : List (String × Variable)) : ZarrMetadata :=
  { zarr_format := 2, global_attributes := [], groups := [], vars := vars,
    root_group := rootGroupDefault, dimensions := [] }

def mdResolveEx : ZarrMetadata :=
  mkMetadata [("time", mkVar "time" "time" [10] []), ("grp/lat", mkVar "lat" "grp/lat" [10] [])]

theorem resolve_related_var_scope_witness :
    resolve_related_var mdResolveEx "grp/temp" "lat" = lookupKV mdResolveEx.vars ("grp" ++ "/" ++ "lat")
    ∧ resolve_related_var mdResolveEx "temp" "lat" = lookupKV mdResolveEx.vars "lat" :=
  ⟨(resolve_related_var_scope mdResolveEx "grp/temp" "lat").2.1 rfl "grp" "temp" (by decide),
   (resolve_related_var_scope mdResolveEx "temp" "lat").2.2.1 (by decide)⟩

/-- `Level` from src/cf.rs. -/
inductive Level where
  | info
  | warning
  | error
deriving Repr, DecidableEq

/-- `Issue` from src/cf.rs. -/
structure Issue where
  level : Level
  message : String
deriving Repr, DecidableEq

/-- `CfReport` from src/cf.rs lines 19-24. -/
structure CfReport where
  issues : List Issue
  warnings : Nat
  errors : Nat
deriving Repr, DecidableEq

/-- `CfReport::default()`. -/
def emptyReport : CfReport := { issues := [], warnings := 0, errors := 0 }

/-- `CfReport::info` (src/cf.rs lines 43-48). -/
def CfReport.info (r : CfReport) (msg : String) : CfReport :=
  { r with issues := r.issues ++ [{ level := Level.info, message := msg }] }

/-- `CfReport::warn` (src/cf.rs lines 50-56). -/
def CfReport.warn (r : CfReport) (msg : String) : CfReport :=
  { r with warnings := r.warnings + 1,
           issues := r.issues ++ [{ level := Level.warning, message := msg }] }

/-- `CfReport::error` (src/cf.rs lines 58-64). -/
def CfReport.error (r : CfReport) (msg : String) : CfReport :=
  { r with errors := r.errors + 1,
           issues := r.issues ++ [{ level := Level.error, message := msg }] }

/-- `CfReport::has_errors` (src/cf.rs line 66-68). -/
def CfReport.has_errors (r : CfReport) : Bool :=
  decide (r.errors > 0)

/-- One recording call on a `CfReport`. -/
inductive RecordOp where
  | info (msg : String)
  | warn (msg : String)
  | error (msg : String)

/-- Apply one recording call. -/
def applyOp (r : CfReport) : RecordOp → CfReport
  | .info msg => r.info msg
  | .warn msg => r.warn msg
  | .error msg => r.error msg

/-- Apply a sequence of recording calls in order. -/
def applyOps (ops : List RecordOp) (r : CfReport) : CfReport :=
  ops.foldl applyOp r

/-- The number of issues of a given level in an issue list. -/
def countLevel (lvl : Level) (issues : List Issue) : Nat :=
  (issues.filter (fun i => i.level == lvl)).length

lemma countLevel_append (lvl : Level) (a b : List Issue) :
    countLevel lvl (a ++ b) = countLevel lvl a + countLevel lvl b := by
  simp [countLevel, List.filter_append]

lemma countLevel_pos_iff (lvl : Level) (issues : List Issue) :
    0 < countLevel lvl issues ↔ ∃ i ∈ issues, i.level = lvl := by
  rw [countLevel, ← List.countP_eq_length_filter, List.countP_pos]
  simp

lemma applyOp_inv {r : CfReport} (op : RecordOp)
    (he : r.errors = countLevel Level.error r.issues)
    (hw : r.warnings = countLevel Level.warning r.issues) :
    (applyOp r op).errors = countLevel Level.error (applyOp r op).issues
    ∧ (applyOp r op).warnings = countLevel Level.warning (applyOp r op).issues := by
  cases op <;>
    simp [applyOp, CfReport.info, CfReport.warn, CfReport.error,
      countLevel_append, countLevel, he, hw]

/-- Claim C9: after any sequence of info/warn/error recordings starting from
the default report, the error counter equals the number of Error-level
issues, the warning counter equals the number of Warning-level issues, and
`has_errors()` is true iff at least one Error-level issue was recorded. -/
theorem cf_report_counts (ops : List RecordOp) :
    (applyOps ops emptyReport).errors = countLevel Level.error (applyOps ops emptyReport).issues
    ∧ (applyOps ops emptyReport).warnings
        = countLevel Level.warning (applyOps ops emptyReport).issues
    ∧ ((applyOps ops emptyReport).has_errors = true ↔
        ∃ i ∈ (applyOps ops emptyReport).issues, i.level = Level.error) := by
  have key : ∀ r : CfReport, r.errors = countLevel Level.error r.issues →
      r.warnings = countLevel Level.warning r.issues →
      (applyOps ops r).errors = countLevel Level.error (applyOps ops r).issues
      ∧ (applyOps ops r).warnings = countLevel Level.warning (applyOps ops r).issues := by
    induction ops with
    | nil => intro r he hw; exact ⟨he, hw⟩
    | cons op rest ih =>
      intro r he hw
      have h2 := applyOp_inv op he hw
      simpa [applyOps] using ih _ h2.1 h2.2
  have hmain := key emptyReport rfl rfl
  refine ⟨hmain.1, hmain.2, ?_⟩
  rw [CfReport.has_errors, decide_eq_true_eq, hmain.1]
  exact countLevel_pos_iff _ _

/-- `display_var_path` (src/cf.rs lines 1076-1083). -/
def displayVarPath (path : String) (v : Variable) : String :=
  if path.isEmpty then "root" else v.path

/-- `describe_attr_value` (src/cf.rs lines 1085-1095). -/
def describeAttrValue : AttributeValue → String
  | .string _ => "string"
  | .number _ => "number"
  | .integer _ => "integer"
  | .boolean _ => "boolean"
  | .array _ => "array"
  | .object _ => "object"
  | .null => "null"

/-- Whether an attribute value is a string entry. -/
def isStringAttr : AttributeValue → Bool
  | .string _ => true
  | _ => false

def notArrayMsg (path : String) (v : Variable) (attrName : String)
    (found : AttributeValue) : String :=
  "Variable " ++ displayVarPath path v ++ " attribute " ++ attrName
    ++ " is present but not an array (found " ++ describeAttrValue found ++ ")."

def lengthMismatchMsg (path : String) (v : Variable) (attrName : String)
    (itemsLen shapeLen : Nat) : String :=
  "Variable " ++ displayVarPath path v ++ " " ++ attrName ++ " length ("
    ++ toString itemsLen ++ ") does not match shape dimensionality ("
    ++ toString shapeLen ++ ")."

def nonStringEntriesMsg (path : String) (v : Variable) (attrName : String) : String :=
  "Variable " ++ displayVarPath path v ++ " " ++ attrName
    ++ " contains non-string entries; expected an array of strings."

def emptyNameMsg (path : String) (v : Variable) (attrName : String) : String :=
  "Variable " ++ displayVarPath path v ++ " " ++ attrName
    ++ " contains an empty dimension name."

def dupNameMsg (path : String) (v : Variable) (attrName : String) (name : String) : String :=
  "Variable " ++ displayVarPath path v ++ " " ++ attrName
    ++ " contains duplicate dimension name " ++ name ++ "."

def noDimListMsg (path : String) (v : Variable) : String :=
  "Variable " ++ displayVarPath path v
    ++ " has no explicit dimension name list (_ARRAY_DIMENSIONS/dimension_names); CF tooling may have trouble interpreting axes."

/-- The per-name loop of `check_one_dimension_name_attr`
(src/cf.rs lines 443-461): warn on empty names and on duplicates, tracking
the set of names seen so far. -/
def dimNameChecks (path : String) (v : Variable) (attrName : String) :
    List String → List String → CfReport → CfReport
  | [], _, r => r
  | n :: rest, seen, r =>
    let r1 := if n.trim.isEmpty then r.warn (emptyNameMsg path v attrName) else r
    if seen.contains n then
      dimNameChecks path v attrName rest seen (r1.warn (dupNameMsg path v attrName n))
    else
      dimNameChecks path v attrName rest (n :: seen) r1

/-- `check_one_dimension_name_attr` (src/cf.rs lines 395-462). -/
def check_one_dimension_name_attr (path : String) (v : Variable) (attrName : String)
    (r : CfReport) : CfReport :=
  match lookupA v.attributes attrName with
  | none => r
  | some (AttributeValue.array items) =>
    let r1 := if items.length ≠ v.shape.length
      then r.error (lengthMismatchMsg path v attrName items.length v.shape.length)
      else r
    let names := items.filterMap attrString
    let anyNonString := items.any (fun it => !(isStringAttr it))
    let r2 := if anyNonString then r1.warn (nonStringEntriesMsg path v attrName) else r1
    dimNameChecks path v attrName names [] r2
  | some other => r.warn (notArrayMsg path v attrName other)

/-- The body of the `check_dimension_names` loop for one variable
(src/cf.rs lines 378-393). -/
def check_dimension_names_var (path : String) (v : Variable) (r : CfReport) : CfReport :=
  let present := (lookupA v.attributes "_ARRAY_DIMENSIONS").isSome
    || (lookupA v.attributes "dimension_names").isSome
  let r1 := if !present && !v.shape.isEmpty then r.warn (noDimListMsg path v) else r
  let r2 := check_one_dimension_name_attr path v "_ARRAY_DIMENSIONS" r1
  check_one_dimension_name_attr path v "dimension_names" r2

/-- `check_dimension_names` (src/cf.rs lines 378-393): the loop over all
variables. -/
def check_dimension_names (md : ZarrMetadata) (r : CfReport) : CfReport :=
  md.vars.foldl (fun r pv => check_dimension_names_var pv.1 pv.2 r) r

lemma warn_issues (r : CfReport) (msg : String) :
    (r.warn msg).issues = r.issues ++ [Issue.mk Level.warning msg] := rfl

lemma warn_errors (r : CfReport) (msg : String) : (r.warn msg).errors = r.errors := rfl

lemma dimNameChecks_only_warns (path : String) (v : Variable) (attrName : String)
    (names : List String) :
    ∀ seen (r : CfReport), ∃ tail,
      (dimNameChecks path v attrName names seen r).issues = r.issues ++ tail
      ∧ (∀ i ∈ tail, i.level = Level.warning)
      ∧ (dimNameChecks path v attrName names seen r).errors = r.errors := by
  induction names with
  | nil => intro seen r; exact ⟨[], by simp [dimNameChecks], by simp, rfl⟩
  | cons n rest ih =>
    intro seen r
    cases h1 : n.trim.isEmpty <;> cases h2 : seen.contains n
    · have h2m : n ∉ seen := by simpa using h2
      have hstep : dimNameChecks path v attrName (n :: rest) seen r
          = dimNameChecks path v attrName rest (n :: seen) r := by
        simp [dimNameChecks, h1, h2m]
      obtain ⟨tail, ht, hw, he⟩ := ih (n :: seen) r
      exact ⟨tail, by rw [hstep, ht], hw, by rw [hstep, he]⟩
    · have h2m : n ∈ seen := by simpa using h2
      have hstep : dimNameChecks path v attrName (n :: rest) seen r
          = dimNameChecks path v attrName rest seen
            (r.warn (dupNameMsg path v attrName n)) := by
        simp [dimNameChecks, h1, h2m]
      obtain ⟨tail, ht, hw, he⟩ := ih seen (r.warn (dupNameMsg path v attrName n))
      refine ⟨Issue.mk Level.warning (dupNameMsg path v attrName n) :: tail, ?_, ?_, ?_⟩
      · rw [hstep, ht]
        simp [CfReport.warn]
      · intro i hi
        simp only [List.mem_cons] at hi
        rcases hi with rfl | hi
        · rfl
        · exact hw i hi
      · rw [hstep, he]
        rfl
    · have h2m : n ∉ seen := by simpa using h2
      have hstep : dimNameChecks path v attrName (n :: rest) seen r
          = dimNameChecks path v attrName rest (n :: seen)
            (r.warn (emptyNameMsg path v attrName)) := by
        simp [dimNameChecks, h1, h2m]
      obtain ⟨tail, ht, hw, he⟩ := ih (n :: seen) (r.warn (emptyNameMsg path v attrName))
      refine ⟨Issue.mk Level.warning (emptyNameMsg path v attrName) :: tail, ?_, ?_, ?_⟩
      · rw [hstep, ht]
        simp [CfReport.warn]
      · intro i hi
        simp only [List.mem_cons] at hi
        rcases hi with rfl | hi
        · rfl
        · exact hw i hi
      · rw [hstep, he]
        rfl
    · have h2m : n ∈ seen := by simpa using h2
      have hstep : dimNameChecks path v attrName (n :: rest) seen r
          = dimNameChecks path v attrName rest seen
            ((r.warn (emptyNameMsg path v attrName)).warn (dupNameMsg path v attrName n)) := by
        simp [dimNameChecks, h1, h2m]
      obtain ⟨tail, ht, hw, he⟩ := ih seen
        ((r.warn (emptyNameMsg path v attrName)).warn (dupNameMsg path v attrName n))
      refine ⟨Issue.mk Level.warning (emptyNameMsg path v attrName)
        :: Issue.mk Level.warning (dupNameMsg path v attrName n) :: tail, ?_, ?_, ?_⟩
      · rw [hstep, ht]
        simp [CfReport.warn]
      · intro i hi
        simp only [List.mem_cons] at hi
        rcases hi with rfl | rfl | hi
        · rfl
        · rfl
        · exact hw i hi
      · rw [hstep, he]
        rfl

lemma checkOne_absent (path : String) (v : Variable) (attrName : String) (r : CfReport)
    (h : lookupA v.attributes attrName = none) :
    check_one_dimension_name_attr path v attrName r = r := by
  simp [check_one_dimension_name_attr, h]

lemma checkOne_mismatch (path : String) (v : Variable) (attrName : String) (r : CfReport)
    (items : List AttributeValue)
    (hattr : lookupA v.attributes attrName = some (AttributeValue.array items))
    (hlen : items.length ≠ v.shape.length) :
    ∃ tail, (check_one_dimension_name_attr path v attrName r).issues
        = r.issues
          ++ Issue.mk Level.error (lengthMismatchMsg path v attrName items.length v.shape.length)
          :: tail
      ∧ (∀ i ∈ tail, i.level = Level.warning)
      ∧ (check_one_dimension_name_attr path v attrName r).errors = r.errors + 1 := by
  cases hns : items.any (fun it => !(isStringAttr it))
  · have hstep : check_one_dimension_name_attr path v attrName r
        = dimNameChecks path v attrName (items.filterMap attrString) []
          (r.error (lengthMismatchMsg path v attrName items.length v.shape.length)) := by
      simp [check_one_dimension_name_attr, hattr, hns, hlen]
    obtain ⟨tail, ht, hw, he⟩ := dimNameChecks_only_warns path v attrName
      (items.filterMap attrString) []
      (r.error (lengthMismatchMsg path v attrName items.length v.shape.length))
    refine ⟨tail, ?_, hw, ?_⟩
    · rw [hstep, ht]
      simp [CfReport.error]
    · rw [hstep, he]
      rfl
  · have hstep : check_one_dimension_name_attr path v attrName r
        = dimNameChecks path v attrName (items.filterMap attrString) []
          ((r.error (lengthMismatchMsg path v attrName items.length v.shape.length)).warn
            (nonStringEntriesMsg path v attrName)) := by
      simp [check_one_dimension_name_attr, hattr, hns, hlen]
    obtain ⟨tail, ht, hw, he⟩ := dimNameChecks_only_warns path v attrName
      (items.filterMap attrString) []
      ((r.error (lengthMismatchMsg path v attrName items.length v.shape.length)).warn
        (nonStringEntriesMsg path v attrName))
    refine ⟨Issue.mk Level.warning (nonStringEntriesMsg path v attrName) :: tail, ?_, ?_, ?_⟩
    · rw [hstep, ht]
      simp [CfReport.error, CfReport.warn]
    · intro i hi
      simp only [List.mem_cons] at hi
      rcases hi with rfl | hi
      · rfl
      · exact hw i hi
    · rw [hstep, he]
      rfl

/-- Claim C5: for a variable carrying exactly one explicit dimension-name-list
attribute that is an array whose length differs from the shape length, the
dimension-name check records exactly one Error-level issue (the mismatch),
every other issue it records is a Warning, and checking continues past the
error (the error counter rises by exactly one). -/
theorem dimension_name_length_mismatch_error
    (path : String) (v : Variable) (r : CfReport) (items : List AttributeValue)
    (hlen : items.length ≠ v.shape.length)
    (hcase : (lookupA v.attributes "_ARRAY_DIMENSIONS" = some (AttributeValue.array items)
        ∧ lookupA v.attributes "dimension_names" = none)
      ∨ (lookupA v.attributes "dimension_names" = some (AttributeValue.array items)
        ∧ lookupA v.attributes "_ARRAY_DIMENSIONS" = none)) :
    ∃ e tail, (check_dimension_names_var path v r).issues = r.issues ++ e :: tail
      ∧ e.level = Level.error
      ∧ (∀ i ∈ tail, i.level = Level.warning)
      ∧ (check_dimension_names_var path v r).errors = r.errors + 1 := by
  rcases hcase with ⟨had, hdn⟩ | ⟨hdn, had⟩
  · have hvar : check_dimension_names_var path v r
        = check_one_dimension_name_attr path v "_ARRAY_DIMENSIONS" r := by
      simp [check_dimension_names_var, had, hdn, checkOne_absent]
    obtain ⟨tail, ht, hw, he⟩ := checkOne_mismatch path v "_ARRAY_DIMENSIONS" r items had hlen
    exact ⟨_, tail, by rw [hvar, ht], rfl, hw, by rw [hvar, he]⟩
  · have hvar : check_dimension_names_var path v r
        = check_one_dimension_name_attr path v "dimension_names" r := by
      simp [check_dimension_names_var, had, hdn, checkOne_absent]
    obtain ⟨tail, ht, hw, he⟩ := checkOne_mismatch path v "dimension_names" r items hdn hlen
    exact ⟨_, tail, by rw [hvar, ht], rfl, hw, by rw [hvar, he]⟩

def c5Var : Variable :=
  mkVar "data" "data" [2, 3]
    [("_ARRAY_DIMENSIONS", AttributeValue.array [AttributeValue.string "a"])]

theorem dimension_name_length_mismatch_error_witness :
    ∃ e tail, (check_dimension_names_var "data" c5Var emptyReport).issues
        = emptyReport.issues ++ e :: tail
      ∧ e.level = Level.error
      ∧ (∀ i ∈ tail, i.level = Level.warning)
      ∧ (check_dimension_names_var "data" c5Var emptyReport).errors = emptyReport.errors + 1 :=
  dimension_name_length_mismatch_error "data" c5Var emptyReport _ (by decide) (Or.inl ⟨rfl, rfl⟩)

def boundsNotFoundMsg (coord_var : Variable) (bounds_name : String) : String :=
  "Coordinate " ++ coord_var.name ++ " declares bounds=" ++ bounds_name
    ++ " but bounds variable was not found."

def boundsShapeMsg (bounds_path : String) (bounds_var : Variable) : String :=
  "Bounds variable " ++ displayVarPath bounds_path bounds_var
    ++ " has too few dimensions; expected at least 2 (e.g. (n, 2))."

def boundsFirstAxisMsg (bounds_path : String) (bounds_var : Variable)
    (coord_var : Variable) (firstAxis coordLen : Nat) : String :=
  "Bounds variable " ++ displayVarPath bounds_path bounds_var
    ++ " first dimension size " ++ toString firstAxis
    ++ " does not match coordinate " ++ coord_var.name
    ++ " length " ++ toString coordLen ++ "."

def boundsSecondAxisMsg (bounds_path : String) (bounds_var : Variable)
    (secondAxis : Nat) : String :=
  "Bounds variable " ++ displayVarPath bounds_path bounds_var
    ++ " second dimension size is " ++ toString secondAxis ++ " (often 2 in CF)."

/-- `check_bounds_variable` (src/cf.rs lines 716-759): resolve the bounds
name; warn and stop when unresolved; warn and stop when the bounds variable
has fewer than two axes; otherwise check the first axis against the
coordinate length and the second axis against 2, independently. -/
def check_bounds_variable (md : ZarrMetadata) (coord_path : String) (coord_var : Variable)
    (bounds_name : String) (r : CfReport) : CfReport :=
  match resolve_related_var md coord_path bounds_name with
  | none => r.warn (boundsNotFoundMsg coord_var bounds_name)
  | some (bounds_path, bounds_var) =>
    let coord_len := coord_var.shape.headD 0
    match bounds_var.shape with
    | a :: b :: _ =>
      let r1 := if a ≠ coord_len
        then r.warn (boundsFirstAxisMsg bounds_path bounds_var coord_var a coord_len)
        else r
      if b ≠ 2 then r1.warn (boundsSecondAxisMsg bounds_path bounds_var b) else r1
    | _ => r.warn (boundsShapeMsg bounds_path bounds_var)

/-- Claim C6: with a string bounds attribute, an unresolved bounds name
records exactly one Warning naming the missing bounds variable and ends the
check; a resolved bounds variable with fewer than two axes records one
Warning and ends the check; otherwise the first-axis and second-axis checks
run independently, each appending its own Warning on failure, and no Error
is ever recorded. -/
theorem check_bounds_variable_cases (md : ZarrMetadata) (coord_path : String)
    (coord_var : Variable) (bounds_name : String) (r : CfReport) :
    (resolve_related_var md coord_path bounds_name = none →
      check_bounds_variable md coord_path coord_var bounds_name r
        = r.warn (boundsNotFoundMsg coord_var bounds_name))
    ∧ (∀ bp bv, resolve_related_var md coord_path bounds_name = some (bp, bv) →
        bv.shape.length < 2 →
        check_bounds_variable md coord_path coord_var bounds_name r
          = r.warn (boundsShapeMsg bp bv))
    ∧ (∀ bp bv a b rest, resolve_related_var md coord_path bounds_name = some (bp, bv) →
        bv.shape = a :: b :: rest →
        (check_bounds_variable md coord_path coord_var bounds_name r).issues
          = r.issues
            ++ (if a ≠ coord_var.shape.headD 0
                then [Issue.mk Level.warning
                  (boundsFirstAxisMsg bp bv coord_var a (coord_var.shape.headD 0))]
                else [])
            ++ (if b ≠ 2 then [Issue.mk Level.warning (boundsSecondAxisMsg bp bv b)] else [])
        ∧ (check_bounds_variable md coord_path coord_var bounds_name r).warnings
          = r.warnings + (if a ≠ coord_var.shape.headD 0 then 1 else 0)
            + (if b ≠ 2 then 1 else 0)
        ∧ (check_bounds_variable md coord_path coord_var bounds_name r).errors = r.errors) := by
  refine ⟨?_, ?_, ?_⟩
  · intro h
    simp [check_bounds_variable, h]
  · intro bp bv h hlen
    cases hs : bv.shape with
    | nil => simp [check_bounds_variable, h, hs]
    | cons a bs =>
      cases bs with
      | nil => simp [check_bounds_variable, h, hs]
      | cons b rest =>
        rw [hs] at hlen
        simp at hlen
        omega
  · intro bp bv a b rest h hs
    have hstep : check_bounds_variable md coord_path coord_var bounds_name r
        = (if b ≠ 2
            then (if a ≠ coord_var.shape.headD 0
                then r.warn (boundsFirstAxisMsg bp bv coord_var a (coord_var.shape.headD 0))
                else r).warn (boundsSecondAxisMsg bp bv b)
            else (if a ≠ coord_var.shape.headD 0
                then r.warn (boundsFirstAxisMsg bp bv coord_var a (coord_var.shape.headD 0))
                else r)) := by
      simp only [check_bounds_variable, h, hs]
    rw [hstep]
    refine ⟨?_, ?_, ?_⟩ <;>
      split_ifs <;> simp [CfReport.warn]

def c6CoordVar : Variable :=
  mkVar "lat" "lat" [3] [("bounds", AttributeValue.string "lat_bnds")]

theorem check_bounds_variable_cases_witness :
    check_bounds_variable (mkMetadata []) "lat" c6CoordVar "lat_bnds" emptyReport
      = emptyReport.warn (boundsNotFoundMsg c6CoordVar "lat_bnds") :=
  (check_bounds_variable_cases (mkMetadata []) "lat" c6CoordVar "lat_bnds" emptyReport).1 rfl

/-- An `f64` sample value as consumed by the numeric checks: NaN, the two
infinities, or a finite value (finite doubles embed order-exactly into the
rationals; `0.0` and `-0.0` both map to `0`, which matches the semantics of
`==`, `<` and subtraction used below). -/
inductive F where
  | nan
  | inf
  | neginf
  | fin (q : Rat)
deriving Repr, DecidableEq

/-- `f64::is_finite`. -/
def F.isFinite : F → Bool
  | .fin _ => true
  | _ => false

/-- IEEE `==` on sample values: NaN compares unequal to everything,
including itself. -/
def fbeq : F → F → Bool
  | .fin a, .fin b => a == b
  | .inf, .inf => true
  | .neginf, .neginf => true
  | _, _ => false

/-- IEEE `<` on sample values: any comparison involving NaN is false. -/
def flt : F → F → Bool
  | .nan, _ => false
  | _, .nan => false
  | .neginf, .neginf => false
  | .neginf, _ => true
  | _, .neginf => false
  | .inf, _ => false
  | .fin _, .inf => true
  | .fin a, .fin b => a < b

/-- IEEE subtraction on sample values (only ever applied to finite values
by `monotonic_direction`; for two finite doubles the rounded difference is
zero exactly when the operands are equal, which the rational difference
reflects). -/
def fsub : F → F → F
  | .fin a, .fin b => .fin (a - b)
  | .nan, _ => .nan
  | _, .nan => .nan
  | .inf, .inf => .nan
  | .inf, _ => .inf
  | .neginf, .neginf => .nan
  | .neginf, _ => .neginf
  | .fin _, .inf => .neginf
  | .fin _, .neginf => .inf

/-- The filter predicate of `monotonic_direction` (src/cf.rs line 1003):
`v.is_finite() && !missing_values.contains(v)` (`contains` uses IEEE `==`,
so a NaN entry in the missing list never matches). -/
def goodSample (missing : List F) (v : F) : Bool :=
  v.isFinite && !(missing.any (fun m => fbeq m v))

/-- The forward scan of `monotonic_direction` (src/cf.rs lines 1009-1040)
over the filtered values: track the nondecreasing-so-far and
nonincreasing-so-far flags plus whether any change was seen, returning
`none` the instant both flags are false. -/
def monotonicScan : F → List F → Bool → Bool → Bool → Option String
  | _, [], nondec, noninc, anyChange =>
    if !anyChange then some "constant"
    else if nondec then some "increasing"
    else if noninc then some "decreasing"
    else none
  | a, b :: rest, nondec, noninc, anyChange =>
    let nondec1 := if flt b a then false else nondec
    let noninc1 := if flt a b then false else noninc
    let anyChange1 := if !(fbeq (fsub b a) (F.fin 0)) then true else anyChange
    if !nondec1 && !noninc1 then none
    else monotonicScan b rest nondec1 noninc1 anyChange1

/-- `monotonic_direction` (src/cf.rs lines 998-1041). -/
def monotonic_direction (values : List F) (missing_values : List F) : Option String :=
  let filtered := values.filter (goodSample missing_values)
  match filtered with
  | a :: b :: rest => monotonicScan a (b :: rest) true true false
  | _ => none

lemma filter_idem {α : Type} (p : α → Bool) (l : List α) :
    (l.filter p).filter p = l.filter p := by
  induction l with
  | nil => rfl
  | cons a rest ih =>
    cases hp : p a
    · simp [List.filter, hp, ih]
    · simp [List.filter, hp, ih]

/-- Claim C8: `monotonic_direction` is invariant under removing all
non-finite and declared-missing values from its input (equivalently, under
inserting such values at any positions): the classification of the
pre-filtered sequence equals that of the raw sequence. -/
theorem monotonic_direction_filter_invariant (values missing_values : List F) :
    monotonic_direction (values.filter (goodSample missing_values)) missing_values
      = monotonic_direction values missing_values := by
  unfold monotonic_direction
  rw [filter_idem]

/-- Failure values surfaced by the loaders (`anyhow::Error` with the
offending path made explicit). -/
inductive LoadError where
  | notFound (path : String)
  | parseError (path : String)
  | invalid (msg : String)
deriving Repr, DecidableEq

/-- Classification of a present `.zmetadata` file by `serde_json` parsing. -/
inductive ZMetadataFileKind where
  | malformedJson
  | wellFormedJson
deriving Repr, DecidableEq

/-- The store state visible to `ZarrStore::load_metadata`
(src/store.rs lines 33-75).  The three probing decisions taken by those
lines are embedded directly (`zarr.json` present, `.zmetadata` absent /
malformed / well-formed); the outcomes of the three subordinate strategies
`load_v3_metadata`, `parse_consolidated_metadata` and
`load_hierarchical_metadata` are carried as oracle fields, since the claim
concerns only the dispatch among them. -/
structure StoreCtx where
  root : String
  zarrJsonPresent : Bool
  zmetadataFile : Option ZMetadataFileKind
  v3Result : Except LoadError ZarrMetadata
  consolidatedParsed : Except LoadError ZarrMetadata
  hierResult : Except LoadError ZarrMetadata

/-- `ZarrStore::load_consolidated_metadata` (src/store.rs lines 55-75):
absent file → not-found error naming the path; present but malformed JSON →
parse error naming the path; well-formed → the result of
`parse_consolidated_metadata`. -/
def load_consolidated_metadata (s : StoreCtx) : Except LoadError ZarrMetadata :=
  match s.zmetadataFile with
  | none => .error (.notFound (s.root ++ "/.zmetadata"))
  | some .malformedJson => .error (.parseError (s.root ++ "/.zmetadata"))
  | some .wellFormedJson => s.consolidatedParsed

/-- `ZarrStore::load_metadata` (src/store.rs lines 33-52): v3 when
`zarr.json` exists; otherwise try the consolidated strategy and, on ANY
error from it, fall through to hierarchical scanning. -/
def load_metadata (s : StoreCtx) : Except LoadError ZarrMetadata :=
  if s.zarrJsonPresent then s.v3Result
  else
    match load_consolidated_metadata s with
    | .ok m => .ok m
    | .error _ => s.hierResult

def c2Ctx : StoreCtx :=
  { root := "store"
    zarrJsonPresent := false
    zmetadataFile := some .malformedJson
    v3Result := .error (.invalid "unused")
    consolidatedParsed := .error (.invalid "unused")
    hierResult := .ok (mkMetadata [("x", mkVar "x" "x" [4] [])]) }

/-- Counterexample to claim C2 as stated: with a present but malformed
`.zmetadata` and a scannable directory tree, `load_metadata` succeeds via
the per-node fallback instead of failing, even though
`load_consolidated_metadata` itself reports a parse error with the
offending path. -/
theorem malformed_zmetadata_not_fatal :
    load_consolidated_metadata c2Ctx = .error (.parseError "store/.zmetadata")
    ∧ load_metadata c2Ctx = .ok (mkMetadata [("x", mkVar "x" "x" [4] [])]) :=
  ⟨rfl, rfl⟩

/-- Claim C2 (amended): a present `.zmetadata` with malformed JSON makes
`load_consolidated_metadata` fail with a parse error naming the offending
path, but `load_metadata` treats every failure of the consolidated strategy
alike and falls through to the hierarchical per-node scan instead of
failing. -/
theorem malformed_zmetadata_falls_through (s : StoreCtx)
    (hv3 : s.zarrJsonPresent = false)
    (hmal : s.zmetadataFile = some .malformedJson) :
    load_consolidated_metadata s = .error (.parseError (s.root ++ "/.zmetadata"))
    ∧ load_metadata s = s.hierResult := by
  have hc : load_consolidated_metadata s = .error (.parseError (s.root ++ "/.zmetadata")) := by
    simp [load_consolidated_metadata, hmal]
  refine ⟨hc, ?_⟩
  simp [load_metadata, hv3, hc]

theorem malformed_zmetadata_falls_through_witness :
    load_consolidated_metadata c2Ctx = .error (.parseError (c2Ctx.root ++ "/.zmetadata"))
    ∧ load_metadata c2Ctx = c2Ctx.hierResult :=
  malformed_zmetadata_falls_through c2Ctx rfl rfl

/-- Byte-wise lexicographic comparison of strings as character lists
(`Ord for String` in Rust: lexicographic over the UTF-8 bytes, which orders
exactly like the code points compared here). -/
def listCompare : List Char → List Char → Ordering
  | [], [] => .eq
  | [], _ :: _ => .lt
  | _ :: _, [] => .gt
  | x :: xs, y :: ys =>
    match compare x.toNat y.toNat with
    | .eq => listCompare xs ys
    | o => o

/-- `String::cmp` (used by the third key of the candidate sort). -/
def strCompare (a b : String) : Ordering :=
  listCompare a.data b.data

lemma listCompare_ne_gt_trans (a : List Char) :
    ∀ b c, listCompare a b ≠ .gt → listCompare b c ≠ .gt → listCompare a c ≠ .gt := by
  induction a with
  | nil =>
    intro b c h1 h2
    cases c <;> simp [listCompare]
  | cons x xs ih =>
    intro b c h1 h2
    cases b with
    | nil => simp [listCompare] at h1
    | cons y ys =>
      cases c with
      | nil => simp [listCompare] at h2
      | cons z zs =>
        simp only [listCompare] at h1 h2 ⊢
        cases hxy : compare x.toNat y.toNat <;> cases hyz : compare y.toNat z.toNat
        · have hx := Nat.compare_eq_lt.mp hxy
          have hy := Nat.compare_eq_lt.mp hyz
          have hz : compare x.toNat z.toNat = .lt := Nat.compare_eq_lt.mpr (by omega)
          simp [hz]
        · have hx := Nat.compare_eq_lt.mp hxy
          have hy := Nat.compare_eq_eq.mp hyz
          have hz : compare x.toNat z.toNat = .lt := Nat.compare_eq_lt.mpr (by omega)
          simp [hz]
        · simp [hyz] at h2
        · have hx := Nat.compare_eq_eq.mp hxy
          have hy := Nat.compare_eq_lt.mp hyz
          have hz : compare x.toNat z.toNat = .lt := Nat.compare_eq_lt.mpr (by omega)
          simp [hz]
        · have hx := Nat.compare_eq_eq.mp hxy
          have hy := Nat.compare_eq_eq.mp hyz
          have hz : compare x.toNat z.toNat = .eq := Nat.compare_eq_eq.mpr (by omega)
          simp [hxy] at h1
          simp [hyz] at h2
          simp [hz]
          exact ih ys zs h1 h2
        · simp [hyz] at h2
        · simp [hxy] at h1
        · simp [hxy] at h1
        · simp [hxy] at h1

lemma listCompare_ne_gt_total (a : List Char) :
    ∀ b, listCompare a b ≠ .gt ∨ listCompare b a ≠ .gt := by
  induction a with
  | nil =>
    intro b
    left
    cases b <;> simp [listCompare]
  | cons x xs ih =>
    intro b
    cases b with
    | nil =>
      right
      simp [listCompare]
    | cons y ys =>
      rcases Nat.lt_trichotomy x.toNat y.toNat with h | h | h
      · left
        simp [listCompare, Nat.compare_eq_lt.mpr h]
      · have h1 : compare x.toNat y.toNat = .eq := Nat.compare_eq_eq.mpr h
        have h2 : compare y.toNat x.toNat = .eq := Nat.compare_eq_eq.mpr h.symm
        rcases ih ys with hh | hh
        · left
          simp only [listCompare, h1]
          exact hh
        · right
          simp only [listCompare, h2]
          exact hh
      · right
        simp [listCompare, Nat.compare_eq_lt.mpr h]

lemma strCompare_ne_gt_trans (a b c : String)
    (h1 : strCompare a b ≠ .gt) (h2 : strCompare b c ≠ .gt) : strCompare a c ≠ .gt :=
  listCompare_ne_gt_trans a.data b.data c.data h1 h2

lemma strCompare_ne_gt_total (a b : String) :
    strCompare a b ≠ .gt ∨ strCompare b a ≠ .gt :=
  listCompare_ne_gt_total a.data b.data

/-- `find_coordinate_variables` (src/cf.rs lines 464-474): exactly
one-dimensional variables whose own name equals their single resolved
dimension name. -/
def find_coordinate_variables (md : ZarrMetadata) : List (String × Variable) :=
  (md.vars.filter (fun pv => pv.2.dimensions.length == 1)).filter (fun pv =>
    match pv.2.dimensions with
    | d :: _ => pv.2.name == d.name
    | [] => false)

/-- The `bounds_paths` set of `cf_summary` (src/cf.rs lines 119-130): the
resolved paths of every coordinate variable's string `bounds` reference. -/
def cfBoundsPaths (md : ZarrMetadata) : List String :=
  (find_coordinate_variables md).filterMap (fun pv =>
    match lookupA pv.2.attributes "bounds" with
    | some (AttributeValue.string bounds_name) =>
      (resolve_related_var md pv.1 bounds_name).map Prod.fst
    | _ => none)

/-- `u128::MAX`, the saturation bound of `approx_num_elements`. -/
def u128Max : Nat := 2 ^ 128 - 1

/-- `approx_num_elements` (src/cf.rs lines 262-268): the saturating product
of all shape entries. -/
def approx_num_elements (shape : List Nat) : Nat :=
  shape.foldl (fun acc n => min (acc * n) u128Max) 1

/-- The `(var_path, nelems, ndim)` candidate tuples collected by
`cf_summary` (src/cf.rs lines 220-238): variables minus coordinate
variables, resolved bounds variables, and `grid_mapping_name` carriers. -/
def candidateTuples (md : ZarrMetadata) : List (String × Nat × Nat) :=
  md.vars.filterMap (fun pv =>
    if (find_coordinate_variables md).any (fun c => c.1 == pv.1) then none
    else if (cfBoundsPaths md).contains pv.1 then none
    else if (lookupA pv.2.attributes "grid_mapping_name").isSome then none
    else some (displayVarPath pv.1 pv.2, approx_num_elements pv.2.shape, pv.2.shape.length))

/-- The sort comparator of `cf_summary` (src/cf.rs lines 240-244):
element count descending, then dimensionality descending, then full path
ascending. -/
def candCmp (a b : String × Nat × Nat) : Ordering :=
  (compare b.2.1 a.2.1).then ((compare b.2.2 a.2.2).then (strCompare a.1 b.1))

/-- `a` sorts no later than `b` under the comparator. -/
def candLE (a b : String × Nat × Nat) : Bool :=
  decide (candCmp a b ≠ Ordering.gt)

lemma candCmp_ne_gt_iff (a b : String × Nat × Nat) :
    candCmp a b ≠ .gt ↔
      b.2.1 < a.2.1 ∨ (b.2.1 = a.2.1 ∧ (b.2.2 < a.2.2
        ∨ (b.2.2 = a.2.2 ∧ strCompare a.1 b.1 ≠ .gt))) := by
  unfold candCmp
  cases h1 : compare b.2.1 a.2.1 with
  | lt =>
    have hlt := Nat.compare_eq_lt.mp h1
    simp [Ordering.then]
    exact Or.inl hlt
  | gt =>
    have hgt := Nat.compare_eq_gt.mp h1
    simp [Ordering.then]
    exact ⟨by omega, fun he => absurd he (by omega)⟩
  | eq =>
    have heq := Nat.compare_eq_eq.mp h1
    cases h2 : compare b.2.2 a.2.2 with
    | lt =>
      have hlt2 := Nat.compare_eq_lt.mp h2
      simp [Ordering.then]
      exact Or.inr ⟨heq, Or.inl hlt2⟩
    | gt =>
      have hgt2 := Nat.compare_eq_gt.mp h2
      simp [Ordering.then]
      exact ⟨by omega, fun _ => ⟨by omega, fun he2 => absurd he2 (by omega)⟩⟩
    | eq =>
      have heq2 := Nat.compare_eq_eq.mp h2
      simp only [Ordering.then]
      constructor
      · intro h
        exact Or.inr ⟨heq, Or.inr ⟨heq2, h⟩⟩
      · rintro (h | ⟨he, h | ⟨he2, hs⟩⟩)
        · omega
        · omega
        · exact hs

lemma candLE_trans (a b c : String × Nat × Nat)
    (h1 : candLE a b = true) (h2 : candLE b c = true) : candLE a c = true := by
  rw [candLE, decide_eq_true_eq, candCmp_ne_gt_iff] at h1 h2 ⊢
  rcases h1 with h1 | ⟨h1e, h1i⟩
  · rcases h2 with h2 | ⟨h2e, _⟩
    · exact Or.inl (by omega)
    · exact Or.inl (by omega)
  · rcases h2 with h2 | ⟨h2e, h2i⟩
    · exact Or.inl (by omega)
    · refine Or.inr ⟨by omega, ?_⟩
      rcases h1i with h1i | ⟨h1ie, h1is⟩
      · rcases h2i with h2i | ⟨h2ie, _⟩
        · exact Or.inl (by omega)
        · exact Or.inl (by omega)
      · rcases h2i with h2i | ⟨h2ie, h2is⟩
        · exact Or.inl (by omega)
        · exact Or.inr ⟨by omega, strCompare_ne_gt_trans a.1 b.1 c.1 h1is h2is⟩

lemma candLE_total (a b : String × Nat × Nat) : (candLE a b || candLE b a) = true := by
  rw [Bool.or_eq_true, candLE, candLE, decide_eq_true_eq, decide_eq_true_eq,
    candCmp_ne_gt_iff, candCmp_ne_gt_iff]
  rcases Nat.lt_trichotomy a.2.1 b.2.1 with h | h | h
  · exact Or.inr (Or.inl h)
  · rcases Nat.lt_trichotomy a.2.2 b.2.2 with h2 | h2 | h2
    · exact Or.inr (Or.inr ⟨by omega, Or.inl h2⟩)
    · rcases strCompare_ne_gt_total a.1 b.1 with hs | hs
      · exact Or.inl (Or.inr ⟨by omega, Or.inr ⟨by omega, hs⟩⟩)
      · exact Or.inr (Or.inr ⟨by omega, Or.inr ⟨by omega, hs⟩⟩)
    · exact Or.inl (Or.inr ⟨by omega, Or.inl h2⟩)
  · exact Or.inl (Or.inl h)

/-- `candidates.sort_by(...)` in `cf_summary` (src/cf.rs lines 240-244),
embedded as a stable merge sort under the same comparator. -/
def candidatesSorted (md : ZarrMetadata) : List (String × Nat × Nat) :=
  (candidateTuples md).mergeSort candLE

/-- The final candidate tuples: sorted, restricted to nonzero element
counts, capped at 10 (src/cf.rs lines 246-251). -/
def candidateDataVarTuples (md : ZarrMetadata) : List (String × Nat × Nat) :=
  ((candidatesSorted md).filter (fun c => decide (0 < c.2.1))).take 10

/-- `candidate_data_vars` of `cf_summary`: the paths of the final tuples. -/
def candidate_data_vars (md : ZarrMetadata) : List String :=
  (candidateDataVarTuples md).map Prod.fst

/-- Claim C7: the candidate-data-variable list of `cf_summary` is ordered by
element count descending, then dimensionality descending, then path
ascending (so among candidates with equal count and dimensionality the
lexicographically smaller path comes first), contains only candidates with
nonzero element count, and has at most 10 entries. -/
theorem cf_summary_candidate_ranking (md : ZarrMetadata) :
    candidate_data_vars md = (candidateDataVarTuples md).map Prod.fst
    ∧ (candidateDataVarTuples md).length ≤ 10
    ∧ (∀ c ∈ candidateDataVarTuples md, 0 < c.2.1)
    ∧ (candidateDataVarTuples md).Pairwise (fun a b =>
        b.2.1 < a.2.1 ∨ (b.2.1 = a.2.1 ∧ (b.2.2 < a.2.2
          ∨ (b.2.2 = a.2.2 ∧ strCompare a.1 b.1 ≠ Ordering.gt)))) := by
  refine ⟨rfl, ?_, ?_, ?_⟩
  · simp [candidateDataVarTuples, List.length_take]
  · intro c hc
    have hc2 := (List.take_sublist 10 _).subset hc
    have hc3 := (List.mem_filter.mp hc2).2
    simpa using hc3
  · have hs0 := List.sorted_mergeSort candLE_trans candLE_total (candidateTuples md)
    have hs1 : (candidatesSorted md).Pairwise (fun a b =>
        b.2.1 < a.2.1 ∨ (b.2.1 = a.2.1 ∧ (b.2.2 < a.2.2
          ∨ (b.2.2 = a.2.2 ∧ strCompare a.1 b.1 ≠ Ordering.gt)))) := by
      rw [candidatesSorted]
      refine hs0.imp ?_
      intro a b h
      rw [candLE, decide_eq_true_eq, candCmp_ne_gt_iff] at h
      exact h
    have hs2 := hs1.filter (fun c => decide (0 < c.2.1))
    exact hs2.sublist (List.take_sublist 10 _)

def mdC7 : ZarrMetadata :=
  mkMetadata [("b", mkVar "b" "b" [4, 5] []), ("a", mkVar "a" "a" [2, 10] []),
    ("z", mkVar "z" "z" [0] [])]

theorem cf_summary_candidate_ranking_witness :
    (candidateDataVarTuples mdC7).length ≤ 10 ∧ ∀ c ∈ candidateDataVarTuples mdC7, 0 < c.2.1 :=
  ⟨(cf_summary_candidate_ranking mdC7).2.1, (cf_summary_candidate_ranking mdC7).2.2.1⟩
